import Mathlib

/-!
Verification of the AudioToTextGenerator pipeline core.

The Python sources are shallowly embedded in Lean:
  - Python strings are modelled as lists of characters (`PyStr`), with
    `str.strip`, `str.split(sep)`, `str.startswith` and slicing implemented
    structurally so that every definition evaluates inside the kernel;
  - Python machine-independent `int` becomes `Int` or `Nat`;
  - Python `float` values are modelled as rationals, and `round(x, d)`
    as round-half-to-even on rationals at `d` decimal places;
  - a call to an external service is modelled by a parameter holding the
    outcome of the call (`Option` distinguishes an exception from a result);
  - `uuid.uuid4()` is modelled by a supply of fresh natural numbers threaded
    through construction: each construction consumes the next identifier.
-/

namespace AudioToText

/-! ## Python string primitives -/

/-- Model of a Python string: its sequence of characters. -/
abbrev PyStr := List Char

/-- Coercion from a Lean string literal to its character-list model. -/
def pystr (s : String) : PyStr := s.data

/-- Model of Python `str.strip()`: drop whitespace from both ends. -/
def pyStrip (s : PyStr) : PyStr :=
  ((s.dropWhile Char.isWhitespace).reverse.dropWhile Char.isWhitespace).reverse

/-- Model of Python `str.startswith(pat)`. -/
def pyStartsWith : PyStr → PyStr → Bool
  | _, [] => true
  | [], _ :: _ => false
  | a :: s, b :: p => a == b && pyStartsWith s p

/-- Worker for `pySplit`; the fuel argument is at least the length of the
text, so the fallback branch is never reached from `pySplit`. -/
def pySplitAux (sep : PyStr) : Nat → PyStr → PyStr → List PyStr
  | _, [], acc => [acc.reverse]
  | 0, s, acc => [acc.reverse ++ s]
  | fuel + 1, c :: rest, acc =>
      if pyStartsWith (c :: rest) sep then
        acc.reverse :: pySplitAux sep fuel (List.drop (sep.length - 1) rest) []
      else
        pySplitAux sep fuel rest (c :: acc)

/-- Model of Python `str.split(sep)` for a non-empty separator: cut the text
at each non-overlapping occurrence of `sep`, scanning left to right,
keeping empty pieces. -/
def pySplit (sep s : PyStr) : List PyStr :=
  pySplitAux sep s.length s []

/-! ## translate_text.py -/

/-- Embedding of `estimate_token_count`: `len(text) // 2`. -/
def estimate_token_count (text : PyStr) : Nat :=
  text.length / 2

/-- Loop of `create_batches`: walks the sections, carrying the list of closed
batches, the currently open batch and its running token total.  A section is
moved to a fresh batch when adding it would exceed the limit and the current
batch is non-empty; the final batch is appended when non-empty. -/
def createBatchesGo (token_limit : Int) :
    List PyStr → List (List PyStr) → List PyStr → Nat → List (List PyStr)
  | [], batches, current_batch, _ =>
      if current_batch = [] then batches else batches ++ [current_batch]
  | s :: rest, batches, current_batch, current_tokens =>
      let section_tokens := estimate_token_count s
      if ((current_tokens + section_tokens : Nat) : Int) > token_limit ∧ current_batch ≠ [] then
        createBatchesGo token_limit rest (batches ++ [current_batch]) [s] section_tokens
      else
        createBatchesGo token_limit rest batches (current_batch ++ [s])
          (current_tokens + section_tokens)

/-- Embedding of `create_batches(sections, token_limit)`. -/
def create_batches (sections : List PyStr) (token_limit : Int) : List (List PyStr) :=
  createBatchesGo token_limit sections [] [] 0

/-- Separator used by `translate_batch` to join and re-split sections. -/
def section_separator : PyStr := pystr ("[SECTION_BREAK]")

/-- Error marker substituted for every section of a failed batch. -/
def translation_error_marker : PyStr := pystr ("[Translation Error]")

/-- Label stripped from the front of a response by `translate_batch`. -/
def translation_label : PyStr := pystr ("Translation:")

/-- Post-processing of a successful service response inside `translate_batch`:
strip, drop a leading `Translation:` label, split on the separator, strip
each recovered unit. -/
def recoverUnits (response_text : PyStr) : List PyStr :=
  let translation := pyStrip response_text
  let translation :=
    if pyStartsWith translation translation_label then
      pyStrip (translation.drop translation_label.length)
    else translation
  (pySplit section_separator translation).map pyStrip

/-- Embedding of `translate_batch`.  The external call is a parameter:
`some t` is a response whose text is `t`, `none` is a raised exception.
The returned flag records whether the count-mismatch warning was printed. -/
def translate_batch (response : Option PyStr) (batch : List PyStr) :
    Bool × List PyStr :=
  match response with
  | some t =>
      let translated_sections := recoverUnits t
      (translated_sections.length ≠ batch.length, translated_sections)
  | none =>
      (false, List.replicate batch.length translation_error_marker)

/-! ### Batcher lemmas -/

theorem createBatchesGo_flatten (token_limit : Int) (sections : List PyStr) :
    ∀ (batches : List (List PyStr)) (current_batch : List PyStr) (current_tokens : Nat),
      (createBatchesGo token_limit sections batches current_batch current_tokens).flatten =
        batches.flatten ++ current_batch ++ sections := by
  induction sections with
  | nil =>
      intro batches current_batch current_tokens
      unfold createBatchesGo
      split
      · simp_all
      · simp
  | cons s rest ih =>
      intro batches current_batch current_tokens
      unfold createBatchesGo
      dsimp only
      split
      · rw [ih]
        simp
      · rw [ih]
        simp

theorem createBatchesGo_ne_nil (token_limit : Int) (sections : List PyStr) :
    ∀ (batches : List (List PyStr)) (current_batch : List PyStr) (current_tokens : Nat),
      (∀ b ∈ batches, b ≠ []) →
      ∀ b ∈ createBatchesGo token_limit sections batches current_batch current_tokens, b ≠ [] := by
  induction sections with
  | nil =>
      intro batches current_batch current_tokens hb
      unfold createBatchesGo
      split
      · exact hb
      · intro b hmem
        rcases List.mem_append.1 hmem with h | h
        · exact hb b h
        · rcases List.mem_singleton.1 h with rfl
          assumption
  | cons s rest ih =>
      intro batches current_batch current_tokens hb
      unfold createBatchesGo
      dsimp only
      split
      · refine ih _ _ _ ?_
        intro b hmem
        rcases List.mem_append.1 hmem with h | h
        · exact hb b h
        · rcases List.mem_singleton.1 h with rfl
          rename_i hcond
          exact hcond.2
      · refine ih _ _ _ hb

/-- C1: for every ordered section sequence and every positive token limit,
the batches returned by `create_batches` partition the input (concatenating
all batches in order reproduces the sections exactly) and no batch is empty. -/
theorem create_batches_partitions (sections : List PyStr) (token_limit : Int)
    (hpos : 0 < token_limit) :
    (create_batches sections token_limit).flatten = sections ∧
      ∀ b ∈ create_batches sections token_limit, b ≠ [] := by
  constructor
  · rw [create_batches, createBatchesGo_flatten]
    simp
  · exact createBatchesGo_ne_nil token_limit sections [] [] 0 (by simp)

/-- Witness for C1 at a concrete input. -/
theorem create_batches_partitions_witness :
    (create_batches [pystr ("ab"), pystr ("cdef"), pystr ("gh")] 3).flatten =
      [pystr ("ab"), pystr ("cdef"), pystr ("gh")] :=
  (create_batches_partitions [pystr ("ab"), pystr ("cdef"), pystr ("gh")] 3 (by decide)).1

/-! ### Oversized sections (overflow policy) -/

/-- Running token total of a batch. -/
def sumTokens (batch : List PyStr) : Nat :=
  (batch.map estimate_token_count).sum

/-- Predicate: any oversized section of the batch is alone in it. -/
def OversizedAlone (token_limit : Int) (batch : List PyStr) : Prop :=
  ∀ s ∈ batch, (estimate_token_count s : Int) > token_limit → batch = [s]

theorem sumTokens_append (l : List PyStr) (s : PyStr) :
    sumTokens (l ++ [s]) = sumTokens l + estimate_token_count s := by
  simp [sumTokens]

theorem le_sumTokens_of_mem {s : PyStr} {batch : List PyStr} (h : s ∈ batch) :
    estimate_token_count s ≤ sumTokens batch := by
  induction batch with
  | nil => cases h
  | cons a rest ih =>
      rcases List.mem_cons.1 h with rfl | h
      · simp [sumTokens]
      · have := ih h
        simp only [sumTokens, List.map_cons, List.sum_cons] at this ⊢
        omega

theorem createBatchesGo_oversized (token_limit : Int) (sections : List PyStr) :
    ∀ (batches : List (List PyStr)) (current_batch : List PyStr),
      (∀ b ∈ batches, OversizedAlone token_limit b) →
      OversizedAlone token_limit current_batch →
      ∀ b ∈ createBatchesGo token_limit sections batches current_batch
          (sumTokens current_batch),
        OversizedAlone token_limit b := by
  induction sections with
  | nil =>
      intro batches current_batch hb hc
      unfold createBatchesGo
      split
      · exact hb
      · intro b hmem
        rcases List.mem_append.1 hmem with h | h
        · exact hb b h
        · rcases List.mem_singleton.1 h with rfl
          exact hc
  | cons s rest ih =>
      intro batches current_batch hb hc
      unfold createBatchesGo
      dsimp only
      split
      · rename_i hcond
        have h1 : sumTokens [s] = estimate_token_count s := by simp [sumTokens]
        rw [← h1]
        refine ih _ _ ?_ ?_
        · intro b hmem
          rcases List.mem_append.1 hmem with h | h
          · exact hb b h
          · rcases List.mem_singleton.1 h with rfl
            exact hc
        · intro t ht _
          rcases List.mem_singleton.1 ht with rfl
          rfl
      · rename_i hcond
        rw [← sumTokens_append]
        refine ih _ _ hb ?_
        rcases List.eq_nil_or_concat current_batch with rfl | _
        · intro t ht _
          simp only [List.nil_append, List.mem_singleton] at ht
          subst ht
          rfl
        · push_neg at hcond
          rcases Decidable.em (current_batch = []) with rfl | hne
          · intro t ht _
            simp only [List.nil_append, List.mem_singleton] at ht
            subst ht
            rfl
          · have hle : ((sumTokens current_batch + estimate_token_count s : Nat) : Int) ≤
                token_limit := le_of_not_lt (fun hgt => hne (hcond hgt))
            intro t ht hover
            exfalso
            have htle : estimate_token_count t ≤
                sumTokens current_batch + estimate_token_count s := by
              rcases List.mem_append.1 ht with h | h
              · have := le_sumTokens_of_mem h
                omega
              · rcases List.mem_singleton.1 h with rfl
                omega
            have : (estimate_token_count t : Int) ≤ token_limit := by
              calc (estimate_token_count t : Int)
                  ≤ ((sumTokens current_batch + estimate_token_count s : Nat) : Int) := by
                    exact_mod_cast htle
                _ ≤ token_limit := hle
            omega

/-- Shape of `create_batches` on the overflow example of the spec, for any
first section estimated over the limit of 100. -/
theorem create_batches_overflow_shape (s : PyStr)
    (h : (estimate_token_count s : Int) > 100) :
    create_batches [s, pystr ("b"), pystr ("c")] 100 =
      [[s], [pystr ("b"), pystr ("c")]] := by
  have hb : estimate_token_count (pystr ("b")) = 0 := rfl
  have hc : estimate_token_count (pystr ("c")) = 0 := rfl
  have s1 : create_batches [s, pystr ("b"), pystr ("c")] 100 =
      createBatchesGo 100 [pystr ("b"), pystr ("c")] [] [s] (0 + estimate_token_count s) := by
    rw [create_batches]
    conv_lhs => rw [createBatchesGo]
    rw [if_neg (by simp)]
    rfl
  have s2 : createBatchesGo 100 [pystr ("b"), pystr ("c")] [] [s] (0 + estimate_token_count s) =
      createBatchesGo 100 [pystr ("c")] [[s]] [pystr ("b")]
        (estimate_token_count (pystr ("b"))) := by
    conv_lhs => rw [createBatchesGo]
    rw [if_pos ⟨by rw [hb]; omega, by simp⟩]
    rfl
  have s3 : createBatchesGo 100 [pystr ("c")] [[s]] [pystr ("b")]
        (estimate_token_count (pystr ("b"))) =
      createBatchesGo 100 [] [[s]] [pystr ("b"), pystr ("c")]
        (estimate_token_count (pystr ("b")) + estimate_token_count (pystr ("c"))) := by
    conv_lhs => rw [createBatchesGo]
    rw [if_neg (by rw [hb, hc]; simp)]
    rfl
  rw [s1, s2, s3, createBatchesGo, if_neg (by simp)]
  rfl

/-- C4: a single section whose own estimated size exceeds the token limit is
placed alone in its own over-limit batch, never dropped and never grouped
with another section; in particular the sections a*20000, b, c with
token_limit 100 yield exactly the batches [[a*20000], [b, c]]. -/
theorem oversized_section_alone :
    (∀ (token_limit : Int) (sections : List PyStr) (b : List PyStr) (s : PyStr),
        b ∈ create_batches sections token_limit → s ∈ b →
        (estimate_token_count s : Int) > token_limit → b = [s]) ∧
      create_batches [List.replicate 20000 (Char.ofNat 97), pystr ("b"), pystr ("c")] 100 =
        [[List.replicate 20000 (Char.ofNat 97)], [pystr ("b"), pystr ("c")]] := by
  constructor
  · intro token_limit sections b s hb hs hover
    have h0 : sumTokens ([] : List PyStr) = 0 := by simp [sumTokens]
    have := createBatchesGo_oversized token_limit sections [] []
      (by intro b hb; cases hb) (by intro t ht; cases ht)
    rw [h0] at this
    exact this b hb s hs hover
  · refine create_batches_overflow_shape _ ?_
    have hlen : (List.replicate 20000 (Char.ofNat 97)).length = 20000 :=
      List.length_replicate 20000 (Char.ofNat 97)
    unfold estimate_token_count
    rw [hlen]
    norm_num

/-- Witness for C4: the general part applied at a concrete oversized input. -/
theorem oversized_section_alone_witness :
    ([pystr ("abcd")] : List PyStr) = [pystr ("abcd")] :=
  oversized_section_alone.1 1 [pystr ("abcd"), pystr ("x")] [pystr ("abcd")] (pystr ("abcd"))
    (by decide) (by decide) (by decide)

/-! ### Dispatcher behaviour -/

/-- C3: when the service response splits into a unit count different from the
section count of the batch, `translate_batch` emits the soft integrity warning
and returns exactly the recovered units, neither padded nor truncated, so the
returned length is the recovered count and may differ from the batch length. -/
theorem translate_batch_mismatch (response_text : PyStr) (batch : List PyStr)
    (hmismatch : (recoverUnits response_text).length ≠ batch.length) :
    translate_batch (some response_text) batch = (true, recoverUnits response_text) ∧
      (translate_batch (some response_text) batch).2.length =
        (recoverUnits response_text).length := by
  constructor
  · simp [translate_batch, hmismatch]
  · simp [translate_batch]

/-- Witness for C3: a mock response of two units against a batch of three
sections triggers the warning and comes back unpadded with two units. -/
theorem translate_batch_mismatch_witness :
    translate_batch (some (pystr ("hello[SECTION_BREAK]world")))
        [pystr ("x"), pystr ("y"), pystr ("z")] =
        (true, [pystr ("hello"), pystr ("world")]) ∧
      (translate_batch (some (pystr ("hello[SECTION_BREAK]world")))
        [pystr ("x"), pystr ("y"), pystr ("z")]).2.length = 2 := by
  have h := translate_batch_mismatch (pystr ("hello[SECTION_BREAK]world"))
    [pystr ("x"), pystr ("y"), pystr ("z")] (by decide)
  refine ⟨?_, ?_⟩
  · rw [h.1]
    decide
  · rw [h.2]
    decide

/-- C5: when the service call raises an exception, `translate_batch` returns
(without raising) a list holding the explicit error marker for every section
of the batch, hence of exactly the length of the batch. -/
theorem translate_batch_failure (batch : List PyStr) :
    (translate_batch none batch).2.length = batch.length ∧
      ∀ s ∈ (translate_batch none batch).2, s = translation_error_marker := by
  constructor
  · simp [translate_batch]
  · intro s hs
    simp only [translate_batch] at hs
    exact List.eq_of_mem_replicate hs

/-- Witness for C5 at a concrete failed batch of two sections. -/
theorem translate_batch_failure_witness :
    (translate_batch none [pystr ("alpha"), pystr ("beta")]).2.length = 2 :=
  (translate_batch_failure [pystr ("alpha"), pystr ("beta")]).1

/-! ## audio_splitter.py -/

/-- Model of Python `int(q)` on a real quantity: truncation toward zero. -/
def pyTruncInt (q : ℚ) : Int :=
  if 0 ≤ q then ⌊q⌋ else ⌈q⌉

/-- Time windows computed by the loop of `split_audio`: chunk `i` starts at
`i * chunk_duration` and lasts `chunk_duration + overlap_seconds`, for
`i` in `range(int(total_duration / chunk_duration) + 1)`. -/
def split_audio_windows_list (total_duration chunk_duration overlap_seconds : ℚ) :
    List (ℚ × ℚ) :=
  (List.range (pyTruncInt (total_duration / chunk_duration) + 1).toNat).map
    (fun i : Nat => ((i : ℚ) * chunk_duration, chunk_duration + overlap_seconds))

/-- Message of the uncaught Python exception raised on division by zero. -/
def zero_division_error : String := "ZeroDivisionError: float division by zero"

/-- Embedding of the planning part of `split_audio` (file naming and the
external ffmpeg invocations are plumbing and are not modelled): computing
`total_chunks` divides by `chunk_duration`, so a zero chunk duration raises
before any window is produced; otherwise the window list is returned. -/
def split_audio_plan (total_duration chunk_duration overlap_seconds : ℚ) :
    Except String (List (ℚ × ℚ)) :=
  if chunk_duration = 0 then Except.error zero_division_error
  else Except.ok (split_audio_windows_list total_duration chunk_duration overlap_seconds)

/-- Wrapper matching the source signature, where the chunk duration is given
in minutes and converted to seconds. -/
def split_audio (total_duration chunk_duration_minutes overlap_seconds : ℚ) :
    Except String (List (ℚ × ℚ)) :=
  split_audio_plan total_duration (chunk_duration_minutes * 60) overlap_seconds

/-- C2: for positive duration and chunk size and nonnegative overlap, the
planner succeeds and produces exactly floor(total/chunk)+1 windows, window i
starting at i*chunk and lasting chunk+overlap, and the closed intervals
from start to start+length jointly cover [0, total_duration] with no gap. -/
theorem split_audio_plan_covers (D c o : ℚ) (hD : 0 < D) (hc : 0 < c) (ho : 0 ≤ o) :
    split_audio_plan D c o = Except.ok (split_audio_windows_list D c o) ∧
      ((split_audio_windows_list D c o).length : Int) = ⌊D / c⌋ + 1 ∧
      (∀ (i : Nat) (h : i < (split_audio_windows_list D c o).length),
          (split_audio_windows_list D c o).get ⟨i, h⟩ = ((i : ℚ) * c, c + o)) ∧
      (∀ t : ℚ, 0 ≤ t → t ≤ D →
          ∃ w ∈ split_audio_windows_list D c o, w.1 ≤ t ∧ t ≤ w.1 + w.2) := by
  have hc0 : c ≠ 0 := ne_of_gt hc
  have hdiv : 0 ≤ D / c := le_of_lt (div_pos hD hc)
  have htr : pyTruncInt (D / c) = ⌊D / c⌋ := if_pos hdiv
  have hfl : 0 ≤ ⌊D / c⌋ := Int.floor_nonneg.2 hdiv
  have hlen : (split_audio_windows_list D c o).length = (⌊D / c⌋ + 1).toNat := by
    rw [split_audio_windows_list, List.length_map, List.length_range, htr]
  have hget : ∀ (i : Nat) (h : i < (split_audio_windows_list D c o).length),
      (split_audio_windows_list D c o).get ⟨i, h⟩ = ((i : ℚ) * c, c + o) := by
    intro i h
    simp only [split_audio_windows_list] at h ⊢
    rw [List.get_eq_getElem, List.getElem_map, List.getElem_range]
  refine ⟨?_, ?_, hget, ?_⟩
  · rw [split_audio_plan, if_neg hc0]
  · rw [hlen, Int.toNat_of_nonneg (by omega)]
  · intro t ht htD
    have htc : 0 ≤ t / c := div_nonneg ht (le_of_lt hc)
    have hfl2 : 0 ≤ ⌊t / c⌋ := Int.floor_nonneg.2 htc
    set i : Nat := (⌊t / c⌋).toNat with hi
    have hicast : ((i : Int)) = ⌊t / c⌋ := Int.toNat_of_nonneg hfl2
    have hdivle : t / c ≤ D / c := by gcongr
    have hle : ⌊t / c⌋ ≤ ⌊D / c⌋ := Int.floor_le_floor hdivle
    have hlt : i < (split_audio_windows_list D c o).length := by
      rw [hlen]
      omega
    have hiq : ((i : ℚ)) = ((⌊t / c⌋ : Int) : ℚ) := by exact_mod_cast hicast
    refine ⟨((i : ℚ) * c, c + o), ?_, ?_, ?_⟩
    · have hmem := List.get_mem (split_audio_windows_list D c o) i hlt
      rwa [hget i hlt] at hmem
    · have h1 : ((⌊t / c⌋ : Int) : ℚ) ≤ t / c := Int.floor_le _
      have h2 : (i : ℚ) * c ≤ (t / c) * c := by
        apply mul_le_mul_of_nonneg_right _ (le_of_lt hc)
        rw [hiq]
        exact h1
      rwa [div_mul_cancel₀ t hc0] at h2
    · have h2 : t / c < (⌊t / c⌋ : Int) + 1 := Int.lt_floor_add_one _
      have h3 : t < (((⌊t / c⌋ : Int) : ℚ) + 1) * c := by
        have h4 := mul_lt_mul_of_pos_right h2 hc
        rw [div_mul_cancel₀ t hc0] at h4
        calc t < (↑⌊t / c⌋ + 1) * c := by exact_mod_cast h4
          _ = (((⌊t / c⌋ : Int) : ℚ) + 1) * c := by norm_cast
      rw [hiq]
      have hexp : (((⌊t / c⌋ : Int) : ℚ) + 1) * c =
          ((⌊t / c⌋ : Int) : ℚ) * c + c := by ring
      rw [hexp] at h3
      linarith

/-- Witness for C2 at total 10, chunk 3, overlap 1. -/
theorem split_audio_plan_covers_witness :
    split_audio_plan 10 3 1 = Except.ok (split_audio_windows_list 10 3 1) ∧
      ((split_audio_windows_list 10 3 1).length : Int) = ⌊(10 : ℚ) / 3⌋ + 1 :=
  ⟨(split_audio_plan_covers 10 3 1 (by norm_num) (by norm_num) (by norm_num)).1,
    (split_audio_plan_covers 10 3 1 (by norm_num) (by norm_num) (by norm_num)).2.1⟩

/-- C8 counterexample: with a negative chunk duration of -600 seconds, a
duration of 100 and an overlap of 1, `split_audio` performs no input
validation: it does not report any error and it emits one window (of
negative length), so a non-positive chunk size is neither reported
immediately as fatal nor free of produced output. -/
theorem split_audio_negative_chunk_counterexample :
    split_audio_plan 100 (-600) 1 = Except.ok [((0 : ℚ), -599)] ∧
      split_audio_plan 100 (-600) 1 ≠ Except.error zero_division_error := by
  have h1 : pyTruncInt ((100 : ℚ) / (-600)) = 0 := by
    rw [pyTruncInt, if_neg (by norm_num)]
    norm_num
  have hok : split_audio_plan 100 (-600) 1 = Except.ok [((0 : ℚ), -599)] := by
    rw [split_audio_plan, if_neg (by norm_num)]
    rw [split_audio_windows_list, h1]
    norm_num [show List.range 1 = [0] from rfl]
  refine ⟨hok, ?_⟩
  rw [hok]
  intro h
  exact Except.noConfusion h

/-- C8 amended: a chunk duration equal to zero makes `split_audio` fail
immediately with the uncaught division-by-zero error, producing no windows;
any non-zero chunk duration, including a negative one, is not validated and
the planner returns its computed window list without reporting an error. -/
theorem split_audio_chunk_size_zero_fatal :
    (∀ (D o : ℚ), split_audio_plan D 0 o = Except.error zero_division_error) ∧
      ∀ (D c o : ℚ), c ≠ 0 → (split_audio_plan D c o).isOk = true := by
  constructor
  · intro D o
    rw [split_audio_plan, if_pos rfl]
  · intro D c o hc
    rw [split_audio_plan, if_neg hc]
    rfl

/-- Witness for C8 amended at concrete inputs. -/
theorem split_audio_chunk_size_zero_fatal_witness :
    split_audio_plan 5 0 2 = Except.error zero_division_error ∧
      (split_audio_plan 100 (-600) 1).isOk = true :=
  ⟨split_audio_chunk_size_zero_fatal.1 5 2,
    split_audio_chunk_size_zero_fatal.2 100 (-600) 1 (by norm_num)⟩

/-! ## POIData/scripts/generate_embeddings.py -/

/-- Model of Python `round` to an integer: round half to even. -/
def roundHalfEven (q : ℚ) : Int :=
  if q - ⌊q⌋ < 1 / 2 then ⌊q⌋
  else if 1 / 2 < q - ⌊q⌋ then ⌊q⌋ + 1
  else if Even ⌊q⌋ then ⌊q⌋ else ⌊q⌋ + 1

/-- Model of Python `round(x, d)`: round at `d` decimal places. -/
def pyRound (x : ℚ) (d : Nat) : ℚ :=
  (roundHalfEven (x * 10 ^ d) : ℚ) / 10 ^ d

/-- Embedding of `optimize_embedding`: quantize every component. -/
def optimize_embedding (embedding : List ℚ) (decimals : Nat) : List ℚ :=
  embedding.map (fun x => pyRound x decimals)

theorem roundHalfEven_intCast (n : Int) : roundHalfEven (n : ℚ) = n := by
  rw [roundHalfEven, Int.floor_intCast]
  rw [if_pos (by norm_num)]

theorem pyRound_idem (x : ℚ) (d : Nat) : pyRound (pyRound x d) d = pyRound x d := by
  have h10 : ((10 : ℚ) ^ d) ≠ 0 := by positivity
  conv_lhs => rw [pyRound, pyRound, div_mul_cancel₀ _ h10, roundHalfEven_intCast]
  rw [pyRound]

/-- C7: quantizing a vector at a fixed decimal precision is idempotent,
and the quantized vector has the same length as the input. -/
theorem optimize_embedding_idempotent (embedding : List ℚ) (d : Nat) :
    optimize_embedding (optimize_embedding embedding d) d =
        optimize_embedding embedding d ∧
      (optimize_embedding embedding d).length = embedding.length := by
  constructor
  · rw [optimize_embedding, optimize_embedding, List.map_map]
    apply List.map_congr_left
    intro x _
    exact pyRound_idem x d
  · rw [optimize_embedding, List.length_map]

/-- Embedding of the `PointOfInterest` data model. -/
structure PointOfInterest where
  id : Nat
  content : PyStr
  latitude : Option ℚ
  longitude : Option ℚ
  embedding : Option (List ℚ)
deriving DecidableEq

/-- Embedding of `PointOfInterest.__init__`: `uuid.uuid4()` is modelled by
the identifier supply `gen`, consumed and incremented at every construction;
latitude and longitude are read from the optional location pair. -/
def PointOfInterest.make (gen : Nat) (content : PyStr) (location : Option (ℚ × ℚ))
    (embedding : Option (List ℚ)) : PointOfInterest × Nat :=
  ({ id := gen
     content := content
     latitude := location.map Prod.fst
     longitude := location.map Prod.snd
     embedding := embedding }, gen + 1)

/-- Per-POI body of `generate_embeddings_for_pois` when the embedding call
succeeds with result `embedding`: a fresh PointOfInterest is constructed
from the old content, the old coordinates only when both are truthy
(non-`None` and non-zero, Python truthiness of floats), and the new
embedding. -/
def process_poi (gen : Nat) (poi : PointOfInterest) (embedding : List ℚ) :
    PointOfInterest × Nat :=
  match poi.latitude, poi.longitude with
  | some la, some lo =>
      if la ≠ 0 ∧ lo ≠ 0 then
        PointOfInterest.make gen poi.content (some (la, lo)) (some embedding)
      else
        PointOfInterest.make gen poi.content none (some embedding)
  | _, _ => PointOfInterest.make gen poi.content none (some embedding)

/-- Embedding of the compact record built by `save_embeddings_to_json`;
`l := none` models the location key being omitted from the record. -/
structure CompactRecord where
  i : Nat
  c : PyStr
  e : Option (List ℚ)
  l : Option (List ℚ)
deriving DecidableEq

/-- Per-POI serialization step of `save_embeddings_to_json`: short keys,
`e` is the quantized embedding when `poi.embedding` is truthy (present and
non-empty) and null otherwise, and the `l` key is present exactly when both
coordinates are not `None`. -/
def optimized_poi (poi : PointOfInterest) (decimals : Nat) : CompactRecord :=
  { i := poi.id
    c := poi.content
    e := match poi.embedding with
         | some es => if es = [] then none else some (optimize_embedding es decimals)
         | none => none
    l := match poi.latitude, poi.longitude with
         | some la, some lo => some [la, lo]
         | _, _ => none }

/-- C6 counterexample: a PointOfInterest whose embedding is the empty vector
serializes with a null `e` field, not with its (empty) rounded embedding,
because the source guards the field with Python truthiness of the list. -/
theorem optimized_poi_empty_embedding_counterexample :
    (optimized_poi ⟨0, pystr ("x"), none, none, some []⟩ 2).e = none ∧
      optimize_embedding ([] : List ℚ) 2 = ([] : List ℚ) ∧
      (optimized_poi ⟨0, pystr ("x"), none, none, some []⟩ 2).e ≠
        some (optimize_embedding ([] : List ℚ) 2) := by
  refine ⟨rfl, rfl, ?_⟩
  intro h
  exact Option.noConfusion h

/-- C6 amended: serializing a PointOfInterest preserves id and content under
the short keys, the `e` field is the embedding quantized at the configured
precision whenever the embedding is present and non-empty and is null when
the embedding is missing or empty, and the record omits the location key
exactly when the source POI lacks a latitude or a longitude. -/
theorem optimized_poi_fields (poi : PointOfInterest) (d : Nat) :
    (optimized_poi poi d).i = poi.id ∧
      (optimized_poi poi d).c = poi.content ∧
      (∀ es, poi.embedding = some es → es ≠ [] →
          (optimized_poi poi d).e = some (optimize_embedding es d)) ∧
      ((poi.embedding = none ∨ poi.embedding = some []) →
          (optimized_poi poi d).e = none) ∧
      ((optimized_poi poi d).l = none ↔
          poi.latitude = none ∨ poi.longitude = none) := by
  obtain ⟨pid, pc, plat, plon, pemb⟩ := poi
  refine ⟨rfl, rfl, ?_, ?_, ?_⟩
  · intro es hes hne
    simp only at hes
    subst hes
    simp [optimized_poi, hne]
  · rintro (h | h) <;> simp only at h <;> subst h <;> rfl
  · rcases plat with _ | la <;> rcases plon with _ | lo <;> simp [optimized_poi]

/-- Witness for C6 amended at a concrete POI with coordinates and a
one-component embedding. -/
theorem optimized_poi_fields_witness :
    (optimized_poi ⟨7, pystr ("hi"), some 1, some 2, some [(1 : ℚ) / 3]⟩ 2).e =
        some (optimize_embedding [(1 : ℚ) / 3] 2) ∧
      ((optimized_poi ⟨7, pystr ("hi"), some 1, some 2, some [(1 : ℚ) / 3]⟩ 2).l = none ↔
        (some (1 : ℚ) = none ∨ some (2 : ℚ) = none)) :=
  ⟨(optimized_poi_fields ⟨7, pystr ("hi"), some 1, some 2, some [(1 : ℚ) / 3]⟩ 2).2.2.1
      [(1 : ℚ) / 3] rfl (by simp),
    (optimized_poi_fields ⟨7, pystr ("hi"), some 1, some 2, some [(1 : ℚ) / 3]⟩ 2).2.2.2.2⟩

/-- C10: rebuilding a POI with a fresh embedding preserves its content but
not its id (each construction consumes a fresh identifier, so the new id
differs from any id issued earlier), and the location survives only when
both coordinates are truthy: a missing coordinate or a coordinate equal to
zero silently drops the location from the rebuilt POI. -/
theorem process_poi_frame (gen : Nat) (poi : PointOfInterest) (embedding : List ℚ) :
    (process_poi gen poi embedding).1.content = poi.content ∧
      (process_poi gen poi embedding).1.id = gen ∧
      (poi.id < gen → (process_poi gen poi embedding).1.id ≠ poi.id) ∧
      (∀ la lo, poi.latitude = some la → poi.longitude = some lo → la ≠ 0 → lo ≠ 0 →
          (process_poi gen poi embedding).1.latitude = some la ∧
          (process_poi gen poi embedding).1.longitude = some lo) ∧
      ((poi.latitude = none ∨ poi.longitude = none ∨
          poi.latitude = some 0 ∨ poi.longitude = some 0) →
          (process_poi gen poi embedding).1.latitude = none ∧
          (process_poi gen poi embedding).1.longitude = none) := by
  obtain ⟨pid, pc, plat, plon, pemb⟩ := poi
  have hcontent : (process_poi gen ⟨pid, pc, plat, plon, pemb⟩ embedding).1.content = pc := by
    rcases plat with _ | la <;> rcases plon with _ | lo <;>
      simp only [process_poi, PointOfInterest.make] <;> first | rfl | (split <;> rfl)
  have hid : (process_poi gen ⟨pid, pc, plat, plon, pemb⟩ embedding).1.id = gen := by
    rcases plat with _ | la <;> rcases plon with _ | lo <;>
      simp only [process_poi, PointOfInterest.make] <;> first | rfl | (split <;> rfl)
  refine ⟨hcontent, hid, ?_, ?_, ?_⟩
  · intro hlt
    rw [hid]
    omega
  · intro la lo hla hlo hla0 hlo0
    simp only at hla hlo
    subst hla
    subst hlo
    simp [process_poi, PointOfInterest.make, hla0, hlo0]
  · intro hdrop
    rcases plat with _ | la <;> rcases plon with _ | lo
    · exact ⟨rfl, rfl⟩
    · exact ⟨rfl, rfl⟩
    · exact ⟨rfl, rfl⟩
    · have hzero : la = 0 ∨ lo = 0 := by
        rcases hdrop with h | h | h | h
        · exact absurd h (by simp)
        · exact absurd h (by simp)
        · simp only [Option.some.injEq] at h
          exact Or.inl h
        · simp only [Option.some.injEq] at h
          exact Or.inr h
      have hcond : ¬(la ≠ 0 ∧ lo ≠ 0) := by
        rcases hzero with h | h <;> simp [h]
      simp [process_poi, PointOfInterest.make, hcond]

/-- Witness for C10 at a concrete POI whose latitude is exactly zero. -/
theorem process_poi_frame_witness :
    (process_poi 5 ⟨2, pystr ("p"), some 0, some 3, none⟩ [(1 : ℚ)]).1.id ≠ 2 ∧
      (process_poi 5 ⟨2, pystr ("p"), some 0, some 3, none⟩ [(1 : ℚ)]).1.latitude = none ∧
      (process_poi 5 ⟨2, pystr ("p"), some 0, some 3, none⟩ [(1 : ℚ)]).1.longitude = none :=
  ⟨(process_poi_frame 5 ⟨2, pystr ("p"), some 0, some 3, none⟩ [(1 : ℚ)]).2.2.1 (by norm_num),
    ((process_poi_frame 5 ⟨2, pystr ("p"), some 0, some 3, none⟩ [(1 : ℚ)]).2.2.2.2
      (Or.inr (Or.inr (Or.inl rfl)))).1,
    ((process_poi_frame 5 ⟨2, pystr ("p"), some 0, some 3, none⟩ [(1 : ℚ)]).2.2.2.2
      (Or.inr (Or.inr (Or.inl rfl)))).2⟩

/-! ## combine_txt_files.py -/

/-- Title length threshold of the hashtag segmentation heuristic. -/
def title_length_threshold : Nat := 50

/-- Embedding of the title/body merge loop of `process_combined_text`: the
worker walks the fragment list by index, skipping blank fragments, merging
a short fragment followed by another fragment into one section of the form
title:body (consuming both), and otherwise emitting the stripped fragment
alone; `parts` accumulates the output. -/
def processPartsLoop (raw_parts : List PyStr) (parts : List PyStr) (i : Nat) :
    List PyStr :=
  if h : i < raw_parts.length then
    let cur := pyStrip (raw_parts.get ⟨i, h⟩)
    if cur = [] then
      processPartsLoop raw_parts parts (i + 1)
    else if h2 : i + 1 < raw_parts.length then
      if cur.length < title_length_threshold then
        processPartsLoop raw_parts
          (parts ++ [cur ++ pystr (":") ++ pyStrip (raw_parts.get ⟨i + 1, h2⟩)]) (i + 2)
      else
        processPartsLoop raw_parts (parts ++ [cur]) (i + 1)
    else
      processPartsLoop raw_parts (parts ++ [cur]) (i + 1)
  else
    parts
termination_by raw_parts.length - i
decreasing_by all_goals omega

/-- Hashtag segmentation of `process_combined_text`: split the content on
the hash character, then run the title/body merge loop. -/
def process_combined_parts (content : PyStr) : List PyStr :=
  processPartsLoop (pySplit (pystr ("#")) content) [] 0

/-- C9: in the hashtag segmentation loop, every reached fragment stripping
non-blank whose stripped length is under the 50-character title threshold
and that is immediately followed by another fragment is merged with that
following fragment into the single section title:body; every other
non-blank fragment becomes a section on its own. -/
theorem processPartsLoop_step (raw_parts : List PyStr) (parts : List PyStr) (i : Nat)
    (h : i < raw_parts.length) (hne : pyStrip (raw_parts.get ⟨i, h⟩) ≠ []) :
    (∀ (h2 : i + 1 < raw_parts.length),
        (pyStrip (raw_parts.get ⟨i, h⟩)).length < title_length_threshold →
        processPartsLoop raw_parts parts i =
          processPartsLoop raw_parts
            (parts ++ [pyStrip (raw_parts.get ⟨i, h⟩) ++ pystr (":") ++
              pyStrip (raw_parts.get ⟨i + 1, h2⟩)]) (i + 2)) ∧
      (¬(i + 1 < raw_parts.length ∧
            (pyStrip (raw_parts.get ⟨i, h⟩)).length < title_length_threshold) →
        processPartsLoop raw_parts parts i =
          processPartsLoop raw_parts (parts ++ [pyStrip (raw_parts.get ⟨i, h⟩)]) (i + 1)) := by
  constructor
  · intro h2 hlt
    conv_lhs => rw [processPartsLoop]
    rw [dif_pos h]
    dsimp only
    rw [if_neg hne, dif_pos h2, if_pos hlt]
  · intro hnot
    conv_lhs => rw [processPartsLoop]
    rw [dif_pos h]
    dsimp only
    rw [if_neg hne]
    by_cases h2 : i + 1 < raw_parts.length
    · have hge : ¬(pyStrip (raw_parts.get ⟨i, h⟩)).length < title_length_threshold :=
        fun hlt => hnot ⟨h2, hlt⟩
      rw [dif_pos h2, if_neg hge]
    · rw [dif_neg h2]

/-- Witness for C9: a short first fragment followed by a body fragment is
merged into a single title:body section. -/
theorem processPartsLoop_step_witness :
    processPartsLoop [pystr ("title"), pystr ("body text")] [] 0 =
      processPartsLoop [pystr ("title"), pystr ("body text")]
        [pystr ("title:body text")] 2 := by
  have h := (processPartsLoop_step [pystr ("title"), pystr ("body text")] [] 0
    (by decide) (by decide)).1 (by decide) (by decide)
  rw [h]
  congr 1

end AudioToText
